import Mathlib

/-!
Verification of the slideshow-builder video composition pipeline.

The definitions below are a shallow embedding of the Python sources:
`nextcloud_client.py` (sort_key), `audio_manager.py` (prepare_background_music),
`slideshow_generator.py` (create_video, load_append_video, apply_timer_overlay,
apply_music_attributions), `video_utils.py` (make_silent_audio) and
`video_engine.py` / `create_slideshow.py` (create_slideshow, _compose_final).
Durations and frame rates are modelled as rationals; media clips are modelled
as constructor trees recording how the source builds them, with semantic
functions (duration, fps) mirroring the MoviePy semantics the code relies on.
-/

namespace SlideshowBuilder

/-! ### sort_key (nextcloud_client.py, lines 17-43) -/

/-- Model of Python os.path.basename: the component after the last slash,
computed over the character list so that it evaluates by kernel reduction. -/
def basename (p : String) : String :=
  String.mk (p.data.foldl (fun acc c => if c = '/' then [] else acc.concat c) [])

/-- Leading run of decimal digits of a string, as matched by the regular
expression of digits anchored at the start in sort_key. -/
def leadingDigits (s : String) : String :=
  String.mk (s.data.takeWhile Char.isDigit)

/-- Numeric value of a digit string, as Python int() of the matched group. -/
def natOfDigits (s : String) : ℕ :=
  s.data.foldl (fun n c => 10 * n + (c.toNat - 48)) 0

/-- Key type of sort_key: Python compares the tuples lexicographically, and the
middle component is an int for digit-prefixed names and a string otherwise
(the two cases are separated by the first component, so the heterogeneous
middle components are never compared across cases). -/
abbrev SortKey : Type := ℕ ×ₗ ((ℕ ⊕ₗ String) ×ₗ String)

/-- Embedding of sort_key from nextcloud_client.py: digit-prefixed basenames
map to (0, numeric value, filename), all others to (1, filename, filename). -/
def sort_key (filepath : String) : SortKey :=
  let filename := basename filepath
  let ds := leadingDigits filename
  if ds.isEmpty then
    toLex (1, toLex (toLex (Sum.inr filename), filename))
  else
    toLex (0, toLex (toLex (Sum.inl (natOfDigits ds)), filename))

/-- Ordering induced by sort_key, as used by list.sort with key equal to
sort_key. -/
def keyLE (a b : String) : Prop :=
  sort_key a ≤ sort_key b

instance : DecidableRel keyLE :=
  fun a b => inferInstanceAs (Decidable (sort_key a ≤ sort_key b))

instance : IsTotal String keyLE :=
  ⟨fun a b => le_total (sort_key a) (sort_key b)⟩

instance : IsTrans String keyLE :=
  ⟨fun _ _ _ h1 h2 => le_trans h1 h2⟩

/-- Sorting a list of paths with sort_key, as image_paths.sort with key equal
to sort_key in the sources. -/
def sortPaths (l : List String) : List String :=
  List.insertionSort keyLE l

/-! ### Audio model (audio_manager.py, video_utils.py) -/

/-- A file in the music pool. The load field models AudioFileClip on the path:
some d when the clip loads with duration d, none when loading raises. The meta
field models an optional companion metadata text (present in the spec's
MusicLibrary data model; the source never reads such metadata). -/
structure MusicFile where
  path : String
  load : Option ℚ
  meta : Option String
deriving DecidableEq, Repr

/-- Audio clips as built by the source, with MoviePy constructors as nodes:
silent audio from make_silent_audio, loaded files, binary concatenation
(concatenate_audioclips of a list is the fold of the binary operation),
subclip, forced duration, fade-out, and binary composition
(CompositeAudioClip). -/
inductive AudioTrack where
  | silent (d : ℚ)
  | afile (path : String) (d : ℚ)
  | aconcat2 (a b : AudioTrack)
  | asubclip (t : AudioTrack) (a b : ℚ)
  | awithDuration (t : AudioTrack) (d : ℚ)
  | afadeout (t : AudioTrack) (fd : ℚ)
  | acomposite2 (a b : AudioTrack)
deriving DecidableEq, Repr

/-- Duration of an audio clip, following the MoviePy semantics relied on by
the source: subclip from a to b has duration b minus a, set_duration forces
the duration, audio_fadeout preserves it, CompositeAudioClip ends at the
latest end of its components (all components here start at offset 0). -/
def aduration : AudioTrack → ℚ
  | .silent d => d
  | .afile _ d => d
  | .aconcat2 a b => aduration a + aduration b
  | .asubclip _ a b => b - a
  | .awithDuration _ d => d
  | .afadeout t _ => aduration t
  | .acomposite2 a b => max (aduration a) (aduration b)

/-- Model of concatenate_audioclips on a list of clips. -/
def aconcatList (ts : List AudioTrack) : AudioTrack :=
  ts.foldr AudioTrack.aconcat2 (AudioTrack.silent 0)

/-- Duration contributed by one pool entry when popped: its clip duration when
it loads, nothing when loading fails (the except branch prints and continues). -/
def loadVal (f : MusicFile) : ℚ :=
  (f.load).getD 0

/-- Total duration loaded from a list of pool entries. -/
def loadSum (l : List MusicFile) : ℚ :=
  (l.map loadVal).sum

/-- Clips collected from a list of pool entries, skipping failed loads. -/
def loadTracks (l : List MusicFile) : List AudioTrack :=
  l.filterMap (fun f => (f.load).map (fun d => AudioTrack.afile f.path d))

/-- The track accumulation loop of prepare_background_music
(audio_manager.py lines 85 to 100). State: k counts refills performed so far
(refills k is the reshuffled copy of the music files used at the k-th refill;
the initial pool is refills 0, modelling the initial shuffle), pool is
music_pool, sel is selected_music, cur is current_music_duration. The loop
runs while cur is less than target plus 30, refilling the pool from the
reshuffled file list whenever it is empty, popping the front track, and
accumulating its clip and duration when it loads. Fuel bounds the number of
iterations; none models a run that does not finish within the given fuel
(the Python loop has no bound and can run forever when no track ever loads),
and also the impossible pop from an empty refilled pool. -/
def musicAccumLoop (target : ℚ) (refills : ℕ → List MusicFile) :
    ℕ → ℕ → List MusicFile → List AudioTrack → ℚ → Option (List AudioTrack × ℚ)
  | 0, _, _, _, _ => none
  | fuel + 1, k, pool, sel, cur =>
    if cur < target + 30 then
      match (match pool with | [] => (k + 1, refills k) | t :: rest => (k, t :: rest)) with
      | (_, []) => none
      | (k2, t :: rest) =>
        match t.load with
        | some d =>
          musicAccumLoop target refills fuel k2 rest (sel ++ [AudioTrack.afile t.path d]) (cur + d)
        | none => musicAccumLoop target refills fuel k2 rest sel cur
    else
      some (sel, cur)

/-- Embedding of prepare_background_music (audio_manager.py lines 38 to 132)
after the file listing step: files is the non-random list of music files,
refills gives the shuffled orders (refills 0 is the initial shuffle), and
fadeFails models the except branch around audio_fadeout. Returns none when no
music files exist, when the loop does not finish within fuel, or when nothing
was selected; otherwise builds the concatenated music, cuts it to
audio_end equal to max 0 (target minus 5), forces that duration, applies the
fade-out of 10 seconds (unless it fails), overlays the result on a silent
track of the full target duration, and forces the composite duration to
target. -/
def prepare_background_music (target : ℚ) (files : List MusicFile)
    (refills : ℕ → List MusicFile) (fadeFails : Bool) (fuel : ℕ) : Option AudioTrack :=
  if files = [] then none
  else
    match musicAccumLoop target refills fuel 1 (refills 0) [] 0 with
    | none => none
    | some (selected, _) =>
      if selected = [] then none
      else
        let full_music := aconcatList selected
        let audio_end := max 0 (target - 5)
        let bg0 := AudioTrack.awithDuration (AudioTrack.asubclip full_music 0 audio_end) audio_end
        let bg := if fadeFails then bg0 else AudioTrack.afadeout bg0 10
        some (AudioTrack.awithDuration
          (AudioTrack.acomposite2 (AudioTrack.silent target) bg) target)

/-- Attribution list returned by prepare_background_music in audio_manager.py.
The body of the function declares no attribution accumulator and its return
statement (line 128) returns the composed audio clip alone, so the list of
(offset, text) attributions it returns is empty for every input. -/
def prepareBackgroundMusicAttributions (_target : ℚ) (_files : List MusicFile)
    (_refills : ℕ → List MusicFile) : List (ℚ × String) :=
  []

/-- Modelled from the spec (section 4.4 AudioComposer, step 2), which this
claim quotes: the accumulation loop of the specified AudioComposer also
records, for each accumulated track that was loaded with companion metadata,
an Attribution at the then-current accumulated duration offset, but only when
that offset is before the target duration. This definition follows the spec
wording and exists to compare against the source function, which records
nothing. -/
def specAccumAttributions (target : ℚ) (refills : ℕ → List MusicFile) :
    ℕ → ℕ → List MusicFile → List (ℚ × String) → ℚ → Option (List (ℚ × String) × ℚ)
  | 0, _, _, _, _ => none
  | fuel + 1, k, pool, attrs, cur =>
    if cur < target + 30 then
      match (match pool with | [] => (k + 1, refills k) | t :: rest => (k, t :: rest)) with
      | (_, []) => none
      | (k2, t :: rest) =>
        match t.load with
        | some d =>
          let attrs2 := match t.meta with
            | some m => if cur < target then attrs ++ [(cur, m)] else attrs
            | none => attrs
          specAccumAttributions target refills fuel k2 rest attrs2 (cur + d)
        | none => specAccumAttributions target refills fuel k2 rest attrs cur
    else
      some (attrs, cur)

/-! ### Video model (slideshow_generator.py, video_engine.py) -/

/-- An image path together with whether resize_image and ImageClip succeed on
it (the try block of create_video, slideshow_generator.py lines 67 to 75). -/
structure ImageFile where
  path : String
  decodes : Bool
deriving DecidableEq, Repr

/-- Video clips as built by the source: an empty clip (unit of list
concatenation), image clips with a set duration and fps, loaded video files,
binary concatenation (concatenate_videoclips with chain method on a list is
the fold of the binary operation), subclip, forced duration, assigned fps,
attached audio, and composition of time-bounded overlay layers over a base
clip, each layer given by its start offset and duration. -/
inductive VideoTrack where
  | emptyV
  | imageClip (d fps : ℚ)
  | videoFile (d : ℚ) (fps : Option ℚ)
  | vconcat2 (a b : VideoTrack)
  | vsubclip (t : VideoTrack) (a b : ℚ)
  | vwithDuration (t : VideoTrack) (d : ℚ)
  | vwithFps (t : VideoTrack) (f : ℚ)
  | vwithAudio (t : VideoTrack) (au : AudioTrack)
  | vcomposite (base : VideoTrack) (layers : List (ℚ × ℚ))
deriving DecidableEq, Repr

/-- End of the latest overlay layer in a layer list. -/
def layersEnd (layers : List (ℚ × ℚ)) : ℚ :=
  layers.foldr (fun l m => max (l.1 + l.2) m) 0

/-- Duration of a video clip under the MoviePy semantics the source relies
on: concatenation adds durations, subclip from a to b lasts b minus a,
set_duration forces the value, fps assignment and set_audio leave the
duration unchanged, and a composite without an explicit duration ends at the
latest end among base and layers. -/
def vduration : VideoTrack → ℚ
  | .emptyV => 0
  | .imageClip d _ => d
  | .videoFile d _ => d
  | .vconcat2 a b => vduration a + vduration b
  | .vsubclip _ a b => b - a
  | .vwithDuration _ d => d
  | .vwithFps t _ => vduration t
  | .vwithAudio t _ => vduration t
  | .vcomposite base layers => max (vduration base) (layersEnd layers)

/-- Frame rate carried by a video clip: an explicit fps assignment wins, image
clips carry the fps assigned at creation, loaded files carry their own
(possibly absent) fps, and the duration-only wrappers pass it through. -/
def vfps : VideoTrack → Option ℚ
  | .emptyV => none
  | .imageClip _ f => some f
  | .videoFile _ f => f
  | .vconcat2 a b =>
    match vfps a, vfps b with
    | some fa, some fb => some (max fa fb)
    | some fa, none => some fa
    | none, fb => fb
  | .vsubclip t _ _ => vfps t
  | .vwithDuration t _ => vfps t
  | .vwithFps _ f => some f
  | .vwithAudio t _ => vfps t
  | .vcomposite base _ => vfps base

/-- Model of concatenate_videoclips with chain method on a list of clips. -/
def vconcatList (ts : List VideoTrack) : VideoTrack :=
  ts.foldr VideoTrack.vconcat2 VideoTrack.emptyV

/-- The clips list built by the per-image loop of create_video
(slideshow_generator.py lines 66 to 75): one image clip of the given duration
and fps per image that processes successfully, failures skipped with a
warning. -/
def processedClips (images : List ImageFile) (image_duration fps : ℚ) : List VideoTrack :=
  (images.filter (fun i => i.decodes)).map (fun _ => VideoTrack.imageClip image_duration fps)

/-- Embedding of create_video (slideshow_generator.py lines 41 to 90).
Returns none when the image list is empty or no image processes; otherwise
computes sequence_duration as the clip count times the per-image duration,
num_repeats as the ceiling of target over sequence_duration when that is
positive and 1 otherwise, repeats the clip list that many times, concatenates,
subclips to the range from 0 to target, forces the duration to target and
assigns the fps. -/
def create_video (images : List ImageFile) (image_duration target fps : ℚ) :
    Option VideoTrack :=
  if images = [] then none
  else
    let clips := processedClips images image_duration fps
    if clips = [] then none
    else
      let sequence_duration : ℚ := clips.length * image_duration
      let num_repeats : ℤ := if 0 < sequence_duration then ⌈target / sequence_duration⌉ else 1
      let repeated := (List.replicate num_repeats.toNat clips).flatten
      let slideshow := vconcatList repeated
      some (VideoTrack.vwithFps
        (VideoTrack.vwithDuration (VideoTrack.vsubclip slideshow 0 target) target) fps)

/-- Embedding of _compose_final (video_engine.py lines 245 to 259), identical
to step 6 of create_slideshow (create_slideshow.py lines 294 to 310): with an
append clip the result is the slideshow concatenated with it, or the append
clip alone when there is no slideshow; without an append clip the result is
the slideshow; when nothing exists the RuntimeError with message No video
content created. is raised; finally the computed fps is assigned. -/
def composeFinal (slideshow append : Option VideoTrack) (fps : ℚ) :
    Except String VideoTrack :=
  let final : Option VideoTrack :=
    match append with
    | some a =>
      match slideshow with
      | some s => some (vconcatList [s, a])
      | none => some a
    | none => slideshow
  match final with
  | none => Except.error "No video content created."
  | some f => Except.ok (VideoTrack.vwithFps f fps)

/-! ### Engine composition (video_engine.py create_slideshow, lines 106-209) -/

/-- The append video clip as returned by load_append_video: its duration and
its possibly absent frame rate (already resized, size is not modelled). -/
structure LoadedVideo where
  duration : ℚ
  fps : Option ℚ
deriving DecidableEq, Repr

/-- Rounding to two decimals, as Python round with two digits: the value is
scaled by 100, rounded to an integer, and scaled back. -/
def round2 (q : ℚ) : ℚ :=
  ((round (q * 100) : ℤ) : ℚ) / 100

/-- The project frame rate computed in create_slideshow (video_engine.py lines
122 and 139 to 142): the default 5 when no append clip is loaded or when the
loaded clip has no truthy fps (a fps of none or 0 leaves the default), and
otherwise the append fps clamped to the range 5 to 30 and rounded to two
decimals. -/
def computedFps (append : Option LoadedVideo) : ℚ :=
  match append with
  | none => 5
  | some a =>
    match a.fps with
    | none => 5
    | some f => if f = 0 then 5 else round2 (max 5 (min 30 f))

/-- The append clip as a video track after the fps synchronisation of
video_engine.py line 142: when the loaded clip had a truthy fps the computed
project fps is assigned onto it. -/
def appendTrack (a : LoadedVideo) : VideoTrack :=
  let base := VideoTrack.videoFile a.duration a.fps
  match a.fps with
  | none => base
  | some f => if f = 0 then base else VideoTrack.vwithFps base (computedFps (some a))

/-- The slideshow portion target duration (video_engine.py lines 144 to 148):
the full target when no append clip is loaded, otherwise the target minus the
append duration floored at 0. -/
def slideshowTarget (target : ℚ) (append : Option LoadedVideo) : ℚ :=
  match append with
  | none => target
  | some a => max 0 (target - a.duration)

/-- Embedding of apply_timer_overlay (slideshow_generator.py lines 118 to
158): one 1-second timer layer per whole second of the overlay period, which
runs from the start offset to the clip end, stopping early when the remaining
time against the total duration goes negative; when no layer is produced the
clip is returned unchanged, otherwise the layers are composited over it and
the composite duration is forced back to the clip duration. -/
def apply_timer_overlay (clip : VideoTrack) (start total : ℚ) : VideoTrack :=
  let overlayDuration := vduration clip - start
  let times := (List.range (Int.toNat ⌊overlayDuration⌋)).takeWhile
    (fun t => decide (0 ≤ total - (start + (t : ℚ))))
  let layers := times.map (fun t => (start + (t : ℚ), (1 : ℚ)))
  if layers = [] then clip
  else VideoTrack.vwithDuration (VideoTrack.vcomposite clip layers) (vduration clip)

/-- Embedding of apply_music_attributions (slideshow_generator.py lines 160
to 196): for each attribution a layer starting at its offset and lasting the
display duration capped by the remaining clip time, entries with a
non-positive computed duration skipped; when no layer remains the clip is
returned unchanged, otherwise the layers are composited over it and the
composite duration is forced back to the clip duration. -/
def apply_music_attributions (clip : VideoTrack) (attrs : List (ℚ × String))
    (display : ℚ) : VideoTrack :=
  if attrs = [] then clip
  else
    let layers := attrs.filterMap (fun a =>
      let d := min display (vduration clip - a.1)
      if 0 < d then some (a.1, d) else none)
    if layers = [] then clip
    else VideoTrack.vwithDuration (VideoTrack.vcomposite clip layers) (vduration clip)

/-- Embedding of steps 3 to 5 of create_slideshow (video_engine.py lines 144
to 186) after sourcing: compute the project fps and the slideshow portion
duration; when that portion is positive build the slideshow video (a run
where create_video returns no clip crashes on the set_audio attribute access,
modelled as an error) and attach the prepared background music or silence;
compose the final video with the optional append clip; finally apply the
timer overlay when enabled, starting at the timer lookback before the end. -/
def engineCompose (target image_duration : ℚ) (images : List ImageFile)
    (append : Option LoadedVideo) (musicFiles : List MusicFile)
    (refills : ℕ → List MusicFile) (fadeFails : Bool)
    (enableTimer : Bool) (timerMinutes : ℚ) (fuel : ℕ) : Except String VideoTrack := do
  let fps := computedFps append
  let std := slideshowTarget target append
  let slideshow ←
    if 0 < std then
      match create_video images image_duration std fps with
      | none => Except.error "AttributeError: NoneType object has no attribute set_audio"
      | some v =>
        let audio := (prepare_background_music std musicFiles refills fadeFails fuel).getD
          (AudioTrack.silent std)
        Except.ok (some (VideoTrack.vwithAudio v audio))
    else Except.ok none
  let final ← composeFinal slideshow (append.map appendTrack) fps
  if enableTimer then
    Except.ok (apply_timer_overlay final (max 0 (vduration final - timerMinutes * 60))
      (vduration final))
  else Except.ok final

/-! ### Helper lemmas -/

/-- Bounds for round2 on the clamped range used by the frame rate
computation. -/
lemma round2_mem (x : ℚ) (h5 : 5 ≤ x) (h30 : x ≤ 30) :
    5 ≤ round2 x ∧ round2 x ≤ 30 := by
  have hlow : (500 : ℤ) ≤ round (x * 100) := by
    rw [round_eq]
    rw [Int.le_floor]
    push_cast
    linarith
  have hhigh : round (x * 100) ≤ (3000 : ℤ) := by
    rw [round_eq]
    have : (⌊x * 100 + 1 / 2⌋ : ℤ) < 3001 := by
      rw [Int.floor_lt]
      push_cast
      linarith
    omega
  constructor
  · rw [round2, le_div_iff₀ (by norm_num : (0 : ℚ) < 100)]
    have hc : ((500 : ℤ) : ℚ) ≤ ((round (x * 100) : ℤ) : ℚ) := by exact_mod_cast hlow
    push_cast at hc ⊢
    linarith
  · rw [round2, div_le_iff₀ (by norm_num : (0 : ℚ) < 100)]
    have hc : ((round (x * 100) : ℤ) : ℚ) ≤ ((3000 : ℤ) : ℚ) := by exact_mod_cast hhigh
    push_cast at hc ⊢
    linarith

/-- Timer and attribution overlays never change the duration of the clip they
decorate. -/
lemma vduration_apply_timer (clip : VideoTrack) (start total : ℚ) :
    vduration (apply_timer_overlay clip start total) = vduration clip := by
  simp only [apply_timer_overlay]
  split
  · rfl
  · rfl

/-- Attribution overlays never change the duration of the clip they
decorate. -/
lemma vduration_apply_attrs (clip : VideoTrack) (attrs : List (ℚ × String))
    (display : ℚ) :
    vduration (apply_music_attributions clip attrs display) = vduration clip := by
  simp only [apply_music_attributions]
  split
  · rfl
  · split
    · rfl
    · rfl

/-! ### C3: sort order -/

/-- C3: sorting with sort_key orders digit-prefixed basenames by
(0, numeric value, filename) and all others by (1, filename, filename); the
sorted list is a permutation of the input, sorted under the key order, so
numerically prefixed files come first in numeric order followed by the rest
alphabetically; and the concrete list from the spec sorts as stated. -/
theorem sort_key_orders_numeric_then_alpha :
    (∀ p : String, (leadingDigits (basename p)).isEmpty = false →
      sort_key p =
        toLex (0, toLex (toLex (Sum.inl (natOfDigits (leadingDigits (basename p)))), basename p))) ∧
    (∀ p : String, (leadingDigits (basename p)).isEmpty = true →
      sort_key p = toLex (1, toLex (toLex (Sum.inr (basename p)), basename p))) ∧
    (∀ l : List String, (sortPaths l).Perm l ∧ (sortPaths l).Sorted keyLE) ∧
    sortPaths ["10.jpg", "2.jpg", "a.jpg", "1.jpg"] = ["1.jpg", "2.jpg", "10.jpg", "a.jpg"] := by
  refine ⟨?_, ?_, ?_, by decide⟩
  · intro p h
    simp [sort_key, h]
  · intro p h
    simp [sort_key, h]
  · intro l
    exact ⟨List.perm_insertionSort keyLE l, List.sorted_insertionSort keyLE l⟩

/-- Witness for C3 at concrete inputs: the digit-prefixed and plain cases of
the key, and the concrete sorted list. -/
theorem sort_key_orders_numeric_then_alpha_witness :
    sort_key "photos/10.jpg" = toLex (0, toLex (toLex (Sum.inl 10), "10.jpg")) ∧
    sort_key "a.jpg" = toLex (1, toLex (toLex (Sum.inr "a.jpg"), "a.jpg")) ∧
    sortPaths ["10.jpg", "2.jpg", "a.jpg", "1.jpg"] = ["1.jpg", "2.jpg", "10.jpg", "a.jpg"] := by
  refine ⟨?_, ?_, sort_key_orders_numeric_then_alpha.2.2.2⟩
  · have h := sort_key_orders_numeric_then_alpha.1 "photos/10.jpg" (by decide)
    rw [h]
    decide
  · have h := sort_key_orders_numeric_then_alpha.2.1 "a.jpg" (by decide)
    rw [h]
    decide

/-! ### C5: final composition -/

/-- C5: _compose_final returns the slideshow followed by the append clip when
both exist (duration the sum of the two), the lone clip when only one exists,
the RuntimeError when neither exists, and assigns the computed frame rate to
every non-failing result. -/
theorem composeFinal_cases :
    ∀ (s a : VideoTrack) (fps : ℚ),
      composeFinal (some s) (some a) fps =
        Except.ok (VideoTrack.vwithFps (vconcatList [s, a]) fps) ∧
      vduration (VideoTrack.vwithFps (vconcatList [s, a]) fps) = vduration s + vduration a ∧
      composeFinal none (some a) fps = Except.ok (VideoTrack.vwithFps a fps) ∧
      composeFinal (some s) none fps = Except.ok (VideoTrack.vwithFps s fps) ∧
      composeFinal none none fps = Except.error "No video content created." ∧
      vfps (VideoTrack.vwithFps (vconcatList [s, a]) fps) = some fps ∧
      vfps (VideoTrack.vwithFps a fps) = some fps ∧
      vfps (VideoTrack.vwithFps s fps) = some fps := by
  intro s a fps
  refine ⟨rfl, ?_, rfl, rfl, rfl, rfl, rfl, rfl⟩
  simp [vconcatList, vduration]

/-! ### C7: frame rate -/

/-- C7: the exported frame rate is the fixed default 5 when no append video is
loaded, and the append frame rate clamped to the range 5 to 30 then rounded to
two decimals when one is loaded with a truthy frame rate; in every case the
computed frame rate lies within 5 and 30. -/
theorem computedFps_default_clamped_bounded :
    computedFps none = 5 ∧
    (∀ (a : LoadedVideo) (f : ℚ), a.fps = some f → f ≠ 0 →
      computedFps (some a) = round2 (max 5 (min 30 f))) ∧
    (∀ o : Option LoadedVideo, 5 ≤ computedFps o ∧ computedFps o ≤ 30) := by
  refine ⟨rfl, ?_, ?_⟩
  · intro a f hf hne
    simp [computedFps, hf, hne]
  · intro o
    match o with
    | none => norm_num [computedFps]
    | some a =>
      match ha : a.fps with
      | none => norm_num [computedFps, ha]
      | some f =>
        by_cases hz : f = 0
        · norm_num [computedFps, ha, hz]
        · have hb := round2_mem (max 5 (min 30 f)) (le_max_left _ _)
            (max_le (by norm_num) (min_le_left _ _))
          simpa [computedFps, ha, hz] using hb

/-- Witness for C7 at a concrete loaded append clip with frame rate 24. -/
theorem computedFps_default_clamped_bounded_witness :
    (⟨65, some 24⟩ : LoadedVideo).fps = some 24 ∧ (24 : ℚ) ≠ 0 ∧
    computedFps (some ⟨65, some 24⟩) = round2 (max 5 (min 30 24)) := by
  refine ⟨rfl, by norm_num, ?_⟩
  exact computedFps_default_clamped_bounded.2.1 ⟨65, some 24⟩ 24 rfl (by norm_num)

/-! ### C9: overlays preserve duration -/

/-- C9: for every clip, timer start offset, total duration, attribution list
and display duration, the timer overlay and the music attribution overlay
return a clip of exactly the input duration: the overlays only add
time-bounded layers over the base track. -/
theorem overlays_preserve_duration :
    ∀ (clip : VideoTrack) (start total display : ℚ) (attrs : List (ℚ × String)),
      vduration (apply_timer_overlay clip start total) = vduration clip ∧
      vduration (apply_music_attributions clip attrs display) = vduration clip := by
  intro clip start total display attrs
  exact ⟨vduration_apply_timer clip start total, vduration_apply_attrs clip attrs display⟩

/-! ### C2 and C8: slideshow assembly -/

/-- Unfolding of create_video when images exist and at least one processes. -/
lemma create_video_eq (images : List ImageFile) (d target fps : ℚ)
    (h1 : images ≠ []) (h2 : processedClips images d fps ≠ []) :
    create_video images d target fps =
      some (VideoTrack.vwithFps (VideoTrack.vwithDuration
        (VideoTrack.vsubclip (vconcatList ((List.replicate
          (if 0 < ((processedClips images d fps).length : ℚ) * d then
            ⌈target / (((processedClips images d fps).length : ℚ) * d)⌉ else 1).toNat
          (processedClips images d fps)).flatten)) 0 target) target) fps) := by
  simp only [create_video, if_neg h1, if_neg h2]

/-- Dropping the images that fail to process does not change create_video. -/
lemma processedClips_filter (images : List ImageFile) (d fps : ℚ) :
    processedClips (images.filter (fun i => i.decodes)) d fps =
      processedClips images d fps := by
  simp [processedClips, List.filter_filter]

/-- C2: for a non-empty list of successfully processed images with positive
per-image and target durations, create_video builds the ceiling number of
copies of the image sequence, concatenates them, and truncates to exactly the
target duration; the repeated sequence is at least target long, so the final
subclip truncates rather than stretches. -/
theorem create_video_loops_and_truncates :
    ∀ (images : List ImageFile) (d target fps : ℚ),
      images ≠ [] → (∀ i ∈ images, i.decodes = true) → 0 < d → 0 < target →
      create_video images d target fps =
        some (VideoTrack.vwithFps (VideoTrack.vwithDuration
          (VideoTrack.vsubclip (vconcatList ((List.replicate
            (⌈target / ((images.length : ℚ) * d)⌉).toNat
            (processedClips images d fps)).flatten)) 0 target) target) fps) ∧
      (∀ v, create_video images d target fps = some v → vduration v = target) ∧
      target ≤ ((⌈target / ((images.length : ℚ) * d)⌉ : ℤ) : ℚ) * ((images.length : ℚ) * d) := by
  intro images d target fps hne hdec hd ht
  have hfilter : images.filter (fun i => i.decodes) = images := List.filter_eq_self.mpr hdec
  have hclips : processedClips images d fps = images.map (fun _ => VideoTrack.imageClip d fps) := by
    rw [processedClips, hfilter]
  have hlen : ((processedClips images d fps).length : ℚ) = (images.length : ℚ) := by
    rw [hclips, List.length_map]
  have hclips_ne : processedClips images d fps ≠ [] := by
    rw [hclips]
    simpa using hne
  have hlpos : (0 : ℚ) < (images.length : ℚ) := by
    exact_mod_cast List.length_pos.mpr hne
  have hseq : (0 : ℚ) < (images.length : ℚ) * d := mul_pos hlpos hd
  have heq := create_video_eq images d target fps hne hclips_ne
  rw [hlen, if_pos hseq] at heq
  refine ⟨heq, ?_, ?_⟩
  · intro v hv
    rw [heq] at hv
    cases hv
    rfl
  · have hceil := Int.le_ceil (target / ((images.length : ℚ) * d))
    exact (div_le_iff₀ hseq).mp hceil

/-- Witness for C2: five images at 10 seconds each with target 37 give one
repeat and a 37-second output. -/
theorem create_video_loops_and_truncates_witness :
    vduration ((create_video
      [⟨"1.jpg", true⟩, ⟨"2.jpg", true⟩, ⟨"3.jpg", true⟩, ⟨"4.jpg", true⟩, ⟨"5.jpg", true⟩]
      10 37 5).getD VideoTrack.emptyV) = 37 ∧
    (⌈(37 : ℚ) / (((5 : ℕ) : ℚ) * 10)⌉ : ℤ) = 1 := by
  have h := create_video_loops_and_truncates
    [⟨"1.jpg", true⟩, ⟨"2.jpg", true⟩, ⟨"3.jpg", true⟩, ⟨"4.jpg", true⟩, ⟨"5.jpg", true⟩]
    10 37 5 (by decide) (by decide) (by norm_num) (by norm_num)
  constructor
  · rw [h.1]
    rfl
  · have h50 : ((5 : ℕ) : ℚ) * 10 = 50 := by norm_num
    rw [h50, Int.ceil_eq_iff]
    norm_num

/-- C8: a failing image is skipped and the slideshow is built from the
remaining successfully processed images; the result equals the run on the
successful subset, a non-empty successful subset always yields a slideshow,
an all-failing list yields none, and in the engine an all-failing list with a
positive slideshow portion escalates to a fatal failure of the run. -/
theorem create_video_skips_bad_images :
    ∀ (images : List ImageFile) (d target fps : ℚ),
      create_video images d target fps =
        create_video (images.filter (fun i => i.decodes)) d target fps ∧
      (images.filter (fun i => i.decodes) ≠ [] →
        ∃ v, create_video images d target fps = some v) ∧
      (images.filter (fun i => i.decodes) = [] →
        create_video images d target fps = none) ∧
      (∀ (append : Option LoadedVideo) (musicFiles : List MusicFile)
          (refills : ℕ → List MusicFile) (fadeFails enableTimer : Bool)
          (timerMinutes : ℚ) (fuel : ℕ),
        images.filter (fun i => i.decodes) = [] →
        0 < slideshowTarget target append →
        engineCompose target d images append musicFiles refills fadeFails
            enableTimer timerMinutes fuel =
          Except.error "AttributeError: NoneType object has no attribute set_audio") := by
  intro images d target fps
  have hnone : images.filter (fun i => i.decodes) = [] →
      ∀ target2 fps2 : ℚ, create_video images d target2 fps2 = none := by
    intro hf target2 fps2
    by_cases h0 : images = []
    · simp [create_video, h0]
    · have hclips : processedClips images d fps2 = [] := by
        simp [processedClips, hf]
      simp [create_video, h0, hclips]
  refine ⟨?_, ?_, fun hf => hnone hf target fps, ?_⟩
  · by_cases h0 : images = []
    · simp [h0]
    · by_cases hf : images.filter (fun i => i.decodes) = []
      · rw [hnone hf target fps, hf]
        simp [create_video]
      · have h1 : images ≠ [] := h0
        have hc1 : processedClips images d fps ≠ [] := by
          intro hc
          apply hf
          have : images.filter (fun i => i.decodes) = [] := by
            have := congrArg List.length hc
            simpa [processedClips] using this
          exact this
        have hc2 : processedClips (images.filter (fun i => i.decodes)) d fps ≠ [] := by
          rw [processedClips_filter]
          exact hc1
        rw [create_video_eq images d target fps h1 hc1,
          create_video_eq (images.filter (fun i => i.decodes)) d target fps hf hc2,
          processedClips_filter]
  · intro hf
    have h1 : images ≠ [] := by
      intro h0
      rw [h0] at hf
      exact hf rfl
    have hc1 : processedClips images d fps ≠ [] := by
      intro hcon
      rw [processedClips] at hcon
      exact hf (List.map_eq_nil_iff.mp hcon)
    exact ⟨_, create_video_eq images d target fps h1 hc1⟩
  · intro append musicFiles refills fadeFails enableTimer timerMinutes fuel hf hstd
    have hcv := hnone hf (slideshowTarget target append) (computedFps append)
    simp only [engineCompose, if_pos hstd, hcv]
    rfl

/-- Witness for C8: a list with one failing image still yields a slideshow
from the good image, and an all-failing list makes the engine run fail. -/
theorem create_video_skips_bad_images_witness :
    create_video [⟨"good.jpg", true⟩, ⟨"bad.jpg", false⟩] 10 37 5 =
      create_video [⟨"good.jpg", true⟩] 10 37 5 ∧
    create_video [⟨"bad.jpg", false⟩] 10 37 5 = none ∧
    engineCompose 600 10 [⟨"bad.jpg", false⟩] none [] (fun _ => []) false false 0 0 =
      Except.error "AttributeError: NoneType object has no attribute set_audio" := by
  refine ⟨?_, ?_, ?_⟩
  · have h := (create_video_skips_bad_images [⟨"good.jpg", true⟩, ⟨"bad.jpg", false⟩] 10 37 5).1
    rw [h]
    rfl
  · exact (create_video_skips_bad_images [⟨"bad.jpg", false⟩] 10 37 5).2.2.1 (by decide)
  · exact (create_video_skips_bad_images [⟨"bad.jpg", false⟩] 10 600 5).2.2.2
      none [] (fun _ => []) false false 0 0 (by decide) (by norm_num [slideshowTarget])

/-! ### C6: append video duration arithmetic -/

/-- The fps synchronisation on the append clip does not change its duration. -/
lemma vduration_appendTrack (a : LoadedVideo) :
    vduration (appendTrack a) = a.duration := by
  rcases ha : a.fps with _ | f
  · simp [appendTrack, ha, vduration]
  · by_cases hz : f = 0
    · simp [appendTrack, ha, hz, vduration]
    · simp [appendTrack, ha, hz, vduration]

/-- C6: with a loaded append video the slideshow portion is the target minus
the append duration floored at 0; when that is not positive the engine output
is the append clip alone, and when it is positive the engine output duration
is the slideshow portion plus the append duration, which is the full target. -/
theorem engineCompose_append_duration :
    ∀ (target d : ℚ) (images : List ImageFile) (a : LoadedVideo)
      (musicFiles : List MusicFile) (refills : ℕ → List MusicFile)
      (fadeFails : Bool) (fuel : ℕ),
      images ≠ [] → (∀ i ∈ images, i.decodes = true) → 0 < d →
      slideshowTarget target (some a) = max 0 (target - a.duration) ∧
      (target - a.duration ≤ 0 →
        engineCompose target d images (some a) musicFiles refills fadeFails false 0 fuel =
          Except.ok (VideoTrack.vwithFps (appendTrack a) (computedFps (some a))) ∧
        vduration (VideoTrack.vwithFps (appendTrack a) (computedFps (some a))) = a.duration) ∧
      (0 < target - a.duration →
        Except.map vduration
            (engineCompose target d images (some a) musicFiles refills fadeFails false 0 fuel) =
          Except.ok (slideshowTarget target (some a) + a.duration) ∧
        slideshowTarget target (some a) + a.duration = target) := by
  intro target d images a musicFiles refills fadeFails fuel hne hdec hd
  refine ⟨rfl, ?_, ?_⟩
  · intro hle
    have hstd0 : slideshowTarget target (some a) = 0 := by
      simp [slideshowTarget, max_eq_left hle]
    constructor
    · simp only [engineCompose, hstd0, lt_irrefl, if_false]
      rfl
    · simp [vduration, vduration_appendTrack]
  · intro hpos
    have hstd : slideshowTarget target (some a) = target - a.duration := by
      simp [slideshowTarget, max_eq_right (le_of_lt hpos)]
    have hstdpos : 0 < slideshowTarget target (some a) := by rw [hstd]; exact hpos
    have hclipsne : processedClips images d (computedFps (some a)) ≠ [] := by
      rw [processedClips, List.filter_eq_self.mpr hdec]
      intro hcon
      exact hne (List.map_eq_nil_iff.mp hcon)
    have hcv := create_video_eq images d (slideshowTarget target (some a))
      (computedFps (some a)) hne hclipsne
    constructor
    · simp only [engineCompose, if_pos hstdpos, hcv]
      show Except.map vduration (Except.ok _) = _
      rw [Except.map]
      simp [vduration, vconcatList, vduration_appendTrack]
    · rw [hstd]
      ring

/-- Witness for C6: a 65-second append video with target 600 gives a
535-second slideshow portion and a 600-second total. -/
theorem engineCompose_append_duration_witness :
    slideshowTarget 600 (some ⟨65, some 24⟩) = 535 ∧
    Except.map vduration (engineCompose 600 10 [⟨"1.jpg", true⟩] (some ⟨65, some 24⟩)
      [] (fun _ => []) false false 0 0) = Except.ok 600 := by
  have h := engineCompose_append_duration 600 10 [⟨"1.jpg", true⟩] ⟨65, some 24⟩
    [] (fun _ => []) false 0 (by decide) (by decide) (by norm_num)
  have h3 := h.2.2 (by norm_num)
  constructor
  · rw [h.1]
    norm_num
  · rw [h3.1, h3.2]

/-! ### C1 and C4: background music -/

/-- Unfolding of prepare_background_music after a finished accumulation. -/
lemma prepare_background_music_eq (target : ℚ) (files : List MusicFile)
    (refills : ℕ → List MusicFile) (fadeFails : Bool) (fuel : ℕ)
    (selected : List AudioTrack) (cur : ℚ) (hne : files ≠ [])
    (hloop : musicAccumLoop target refills fuel 1 (refills 0) [] 0 = some (selected, cur))
    (hsel : selected ≠ []) :
    prepare_background_music target files refills fadeFails fuel =
      some (AudioTrack.awithDuration (AudioTrack.acomposite2 (AudioTrack.silent target)
        (if fadeFails then
          AudioTrack.awithDuration
            (AudioTrack.asubclip (aconcatList selected) 0 (max 0 (target - 5)))
            (max 0 (target - 5))
        else
          AudioTrack.afadeout (AudioTrack.awithDuration
            (AudioTrack.asubclip (aconcatList selected) 0 (max 0 (target - 5)))
            (max 0 (target - 5))) 10)) target) := by
  simp only [prepare_background_music, if_neg hne, hloop, if_neg hsel]

/-- C1: for a positive target and a non-empty music library whose
accumulation finishes with at least one track, prepare_background_music
returns an audio track built by overlaying the cut and faded music (of
duration max 0 (target minus 5)) on a silent canvas of the target duration,
with the composite duration forced to target, so the returned duration equals
the target exactly. -/
theorem prepare_background_music_exact_duration :
    ∀ (target : ℚ) (files : List MusicFile) (refills : ℕ → List MusicFile)
      (fadeFails : Bool) (fuel : ℕ) (selected : List AudioTrack) (cur : ℚ),
      0 < target → files ≠ [] →
      musicAccumLoop target refills fuel 1 (refills 0) [] 0 = some (selected, cur) →
      selected ≠ [] →
      ∃ bg, prepare_background_music target files refills fadeFails fuel =
          some (AudioTrack.awithDuration
            (AudioTrack.acomposite2 (AudioTrack.silent target) bg) target) ∧
        aduration bg = max 0 (target - 5) ∧
        (fadeFails = false →
          bg = AudioTrack.afadeout (AudioTrack.awithDuration
            (AudioTrack.asubclip (aconcatList selected) 0 (max 0 (target - 5)))
            (max 0 (target - 5))) 10) ∧
        (∀ t, prepare_background_music target files refills fadeFails fuel = some t →
          aduration t = target) := by
  intro target files refills fadeFails fuel selected cur _ hne hloop hsel
  have heq := prepare_background_music_eq target files refills fadeFails fuel
    selected cur hne hloop hsel
  refine ⟨_, heq, ?_, ?_, ?_⟩
  · by_cases hff : fadeFails
    · simp [hff, aduration]
    · simp [hff, aduration]
  · intro hff
    simp [hff]
  · intro t ht
    rw [heq] at ht
    cases ht
    rfl

/-- Concrete one-track library used by the witnesses: a single track that
loads with duration 100 and carries no companion metadata. -/
def lib1 : List MusicFile := [⟨"a.mp3", some 100, none⟩]

/-- Witness for C1: one 100-second track against a 60-second target finishes
accumulation at 100 seconds and yields audio of duration exactly 60. -/
theorem prepare_background_music_exact_duration_witness :
    musicAccumLoop 60 (fun _ => lib1) 2 1 lib1 [] 0 =
      some ([AudioTrack.afile "a.mp3" 100], 100) ∧
    Option.map aduration (prepare_background_music 60 lib1 (fun _ => lib1) false 2) =
      some 60 := by
  have hloop : musicAccumLoop 60 (fun _ => lib1) 2 1 ((fun _ => lib1) 0) [] 0 =
      some ([AudioTrack.afile "a.mp3" 100], 100) := by
    norm_num [musicAccumLoop, lib1]
  obtain ⟨bg, h1, _, _, h3⟩ := prepare_background_music_exact_duration 60 lib1
    (fun _ => lib1) false 2 [AudioTrack.afile "a.mp3" 100] 100
    (by norm_num) (by decide) hloop (by decide)
  refine ⟨hloop, ?_⟩
  rw [h1]
  simp [h3 _ h1]

/-- Concrete one-track library with companion metadata used by the C4
counterexample and witness. -/
def lib2 : List MusicFile := [⟨"a.mp3", some 100, some "Sound Helix - Track One"⟩]

/-- C4 counterexample: on a concrete library whose single accumulated track
carries companion metadata and starts at offset 0 before the target, the
attribution list required by the claim (computed by the definition following
the spec wording) is the non-empty list with one entry, while
prepare_background_music returns no attribution at all: its attribution
output is empty. -/
theorem prepare_background_music_attributions_cex :
    specAccumAttributions 60 (fun _ => lib2) 2 1 lib2 [] 0 =
      some ([((0 : ℚ), "Sound Helix - Track One")], 100) ∧
    prepareBackgroundMusicAttributions 60 lib2 (fun _ => lib2) = [] ∧
    ([((0 : ℚ), "Sound Helix - Track One")] : List (ℚ × String)) ≠ [] := by
  refine ⟨?_, rfl, by simp⟩
  norm_num [specAccumAttributions, lib2]

/-- C4 amended: for every non-empty music library whose accumulation finishes
with at least one track, prepare_background_music returns only the composed
audio track; it records and returns no attributions, even when accumulated
tracks carry companion metadata. -/
theorem prepare_background_music_returns_audio_only :
    ∀ (target : ℚ) (files : List MusicFile) (refills : ℕ → List MusicFile)
      (fadeFails : Bool) (fuel : ℕ) (selected : List AudioTrack) (cur : ℚ),
      files ≠ [] →
      musicAccumLoop target refills fuel 1 (refills 0) [] 0 = some (selected, cur) →
      selected ≠ [] →
      (∃ bg, prepare_background_music target files refills fadeFails fuel =
        some (AudioTrack.awithDuration
          (AudioTrack.acomposite2 (AudioTrack.silent target) bg) target)) ∧
      prepareBackgroundMusicAttributions target files refills = [] := by
  intro target files refills fadeFails fuel selected cur hne hloop hsel
  exact ⟨⟨_, prepare_background_music_eq target files refills fadeFails fuel
    selected cur hne hloop hsel⟩, rfl⟩

/-- Witness for the amended C4 on the metadata-carrying library. -/
theorem prepare_background_music_returns_audio_only_witness :
    musicAccumLoop 40 (fun _ => lib2) 2 1 lib2 [] 0 =
      some ([AudioTrack.afile "a.mp3" 100], 100) ∧
    prepareBackgroundMusicAttributions 40 lib2 (fun _ => lib2) = [] := by
  have hloop : musicAccumLoop 40 (fun _ => lib2) 2 1 ((fun _ => lib2) 0) [] 0 =
      some ([AudioTrack.afile "a.mp3" 100], 100) := by
    norm_num [musicAccumLoop, lib2]
  have h := prepare_background_music_returns_audio_only 40 lib2 (fun _ => lib2)
    false 2 [AudioTrack.afile "a.mp3" 100] 100 (by decide) hloop (by decide)
  exact ⟨hloop, h.2⟩

/-! ### C10: termination of the accumulation loop -/

section MusicLoop

variable {target : ℚ} {refills : ℕ → List MusicFile}

/-- Base equation of the accumulation loop. -/
lemma musicAccumLoop_zero (k : ℕ) (pool : List MusicFile) (sel : List AudioTrack)
    (cur : ℚ) : musicAccumLoop target refills 0 k pool sel cur = none := rfl

/-- Step equation of the accumulation loop. -/
lemma musicAccumLoop_succ (fuel k : ℕ) (pool : List MusicFile)
    (sel : List AudioTrack) (cur : ℚ) :
    musicAccumLoop target refills (fuel + 1) k pool sel cur =
      if cur < target + 30 then
        match (match pool with | [] => (k + 1, refills k) | t :: rest => (k, t :: rest)) with
        | (_, []) => none
        | (k2, t :: rest) =>
          match t.load with
          | some d => musicAccumLoop target refills fuel k2 rest
              (sel ++ [AudioTrack.afile t.path d]) (cur + d)
          | none => musicAccumLoop target refills fuel k2 rest sel cur
      else some (sel, cur) := rfl

/-- Step equation on a non-empty pool. -/
lemma musicAccumLoop_succ_cons (fuel k : ℕ) (t : MusicFile) (rest : List MusicFile)
    (sel : List AudioTrack) (cur : ℚ) :
    musicAccumLoop target refills (fuel + 1) k (t :: rest) sel cur =
      if cur < target + 30 then
        (match t.load with
         | some d => musicAccumLoop target refills fuel k rest
             (sel ++ [AudioTrack.afile t.path d]) (cur + d)
         | none => musicAccumLoop target refills fuel k rest sel cur)
      else some (sel, cur) := rfl

/-- Step equation on an empty pool when the refill is non-empty. -/
lemma musicAccumLoop_succ_refill (fuel k : ℕ) (t : MusicFile) (rest : List MusicFile)
    (sel : List AudioTrack) (cur : ℚ) (hrk : refills k = t :: rest) :
    musicAccumLoop target refills (fuel + 1) k [] sel cur =
      if cur < target + 30 then
        (match t.load with
         | some d => musicAccumLoop target refills fuel (k + 1) rest
             (sel ++ [AudioTrack.afile t.path d]) (cur + d)
         | none => musicAccumLoop target refills fuel (k + 1) rest sel cur)
      else some (sel, cur) := by
  rw [musicAccumLoop_succ, hrk]

/-- Step equation on an empty pool when the refill is empty as well. -/
lemma musicAccumLoop_succ_dead (fuel k : ℕ) (sel : List AudioTrack) (cur : ℚ)
    (hrk : refills k = []) :
    musicAccumLoop target refills (fuel + 1) k [] sel cur =
      if cur < target + 30 then none else some (sel, cur) := by
  rw [musicAccumLoop_succ, hrk]

/-- The loop halts once the threshold is reached. -/
lemma musicAccumLoop_halt {fuel k : ℕ} {pool : List MusicFile}
    {sel : List AudioTrack} {cur : ℚ} (hc : ¬ cur < target + 30) :
    musicAccumLoop target refills (fuel + 1) k pool sel cur = some (sel, cur) := by
  rw [musicAccumLoop_succ, if_neg hc]

/-- A loading track at the pool front is accumulated. -/
lemma musicAccumLoop_cons_some {fuel k : ℕ} {t : MusicFile} {rest : List MusicFile}
    {sel : List AudioTrack} {cur d : ℚ} (hc : cur < target + 30) (hl : t.load = some d) :
    musicAccumLoop target refills (fuel + 1) k (t :: rest) sel cur =
      musicAccumLoop target refills fuel k rest
        (sel ++ [AudioTrack.afile t.path d]) (cur + d) := by
  rw [musicAccumLoop_succ_cons, if_pos hc, hl]

/-- A failing track at the pool front is skipped. -/
lemma musicAccumLoop_cons_none {fuel k : ℕ} {t : MusicFile} {rest : List MusicFile}
    {sel : List AudioTrack} {cur : ℚ} (hc : cur < target + 30) (hl : t.load = none) :
    musicAccumLoop target refills (fuel + 1) k (t :: rest) sel cur =
      musicAccumLoop target refills fuel k rest sel cur := by
  rw [musicAccumLoop_succ_cons, if_pos hc, hl]

/-- Refill step with a loading track at the refill front. -/
lemma musicAccumLoop_nil_some {fuel k : ℕ} {t : MusicFile} {rest : List MusicFile}
    {sel : List AudioTrack} {cur d : ℚ} (hc : cur < target + 30)
    (hrk : refills k = t :: rest) (hl : t.load = some d) :
    musicAccumLoop target refills (fuel + 1) k [] sel cur =
      musicAccumLoop target refills fuel (k + 1) rest
        (sel ++ [AudioTrack.afile t.path d]) (cur + d) := by
  rw [musicAccumLoop_succ_refill fuel k t rest sel cur hrk, if_pos hc, hl]

/-- Refill step with a failing track at the refill front. -/
lemma musicAccumLoop_nil_none {fuel k : ℕ} {t : MusicFile} {rest : List MusicFile}
    {sel : List AudioTrack} {cur : ℚ} (hc : cur < target + 30)
    (hrk : refills k = t :: rest) (hl : t.load = none) :
    musicAccumLoop target refills (fuel + 1) k [] sel cur =
      musicAccumLoop target refills fuel (k + 1) rest sel cur := by
  rw [musicAccumLoop_succ_refill fuel k t rest sel cur hrk, if_pos hc, hl]

/-- Refill from an empty shuffle while still running yields none. -/
lemma musicAccumLoop_nil_dead {fuel k : ℕ} {sel : List AudioTrack} {cur : ℚ}
    (hc : cur < target + 30) (hrk : refills k = []) :
    musicAccumLoop target refills (fuel + 1) k [] sel cur = none := by
  rw [musicAccumLoop_succ_dead fuel k sel cur hrk, if_pos hc]

/-- A finished run stays finished with the same result on any larger fuel. -/
lemma musicAccumLoop_mono : ∀ (fuel fuel2 k : ℕ) (pool : List MusicFile)
    (sel : List AudioTrack) (cur : ℚ) (r : List AudioTrack × ℚ),
    fuel ≤ fuel2 →
    musicAccumLoop target refills fuel k pool sel cur = some r →
    musicAccumLoop target refills fuel2 k pool sel cur = some r := by
  intro fuel
  induction fuel with
  | zero =>
    intro fuel2 k pool sel cur r _ h
    rw [musicAccumLoop_zero] at h
    exact absurd h (by simp)
  | succ fuel ih =>
    intro fuel2 k pool sel cur r hle h
    match fuel2, hle with
    | fuel2 + 1, hle =>
      have hle2 : fuel ≤ fuel2 := Nat.succ_le_succ_iff.mp hle
      by_cases hc : cur < target + 30
      · rcases pool with _ | ⟨t, rest⟩
        · rcases hrk : refills k with _ | ⟨t, rest⟩
          · rw [musicAccumLoop_nil_dead hc hrk] at h
            exact absurd h (by simp)
          · rcases hl : t.load with _ | d
            · rw [musicAccumLoop_nil_none hc hrk hl] at h ⊢
              exact ih fuel2 (k + 1) rest sel cur r hle2 h
            · rw [musicAccumLoop_nil_some hc hrk hl] at h ⊢
              exact ih fuel2 (k + 1) rest
                (sel ++ [AudioTrack.afile t.path d]) (cur + d) r hle2 h
        · rcases hl : t.load with _ | d
          · rw [musicAccumLoop_cons_none hc hl] at h ⊢
            exact ih fuel2 k rest sel cur r hle2 h
          · rw [musicAccumLoop_cons_some hc hl] at h ⊢
            exact ih fuel2 k rest
              (sel ++ [AudioTrack.afile t.path d]) (cur + d) r hle2 h
      · rw [musicAccumLoop_halt hc] at h ⊢
        exact h

/-- The accumulated duration at exit is the starting duration plus the
durations of the clips accumulated on the way: a failed load contributes
nothing. -/
lemma musicAccumLoop_sum : ∀ (fuel k : ℕ) (pool : List MusicFile)
    (sel : List AudioTrack) (cur : ℚ) (r : List AudioTrack × ℚ),
    musicAccumLoop target refills fuel k pool sel cur = some r →
    r.2 + (sel.map aduration).sum = cur + (r.1.map aduration).sum := by
  intro fuel
  induction fuel with
  | zero =>
    intro k pool sel cur r h
    rw [musicAccumLoop_zero] at h
    exact absurd h (by simp)
  | succ fuel ih =>
    intro k pool sel cur r h
    by_cases hc : cur < target + 30
    · rcases pool with _ | ⟨t, rest⟩
      · rcases hrk : refills k with _ | ⟨t, rest⟩
        · rw [musicAccumLoop_nil_dead hc hrk] at h
          exact absurd h (by simp)
        · rcases hl : t.load with _ | d
          · rw [musicAccumLoop_nil_none hc hrk hl] at h
            exact ih (k + 1) rest sel cur r h
          · rw [musicAccumLoop_nil_some hc hrk hl] at h
            have h2 := ih (k + 1) rest (sel ++ [AudioTrack.afile t.path d]) (cur + d) r h
            simp only [List.map_append, List.sum_append, List.map_cons, List.map_nil,
              List.sum_cons, List.sum_nil, aduration] at h2
            linarith
      · rcases hl : t.load with _ | d
        · rw [musicAccumLoop_cons_none hc hl] at h
          exact ih k rest sel cur r h
        · rw [musicAccumLoop_cons_some hc hl] at h
          have h2 := ih k rest (sel ++ [AudioTrack.afile t.path d]) (cur + d) r h
          simp only [List.map_append, List.sum_append, List.map_cons, List.map_nil,
            List.sum_cons, List.sum_nil, aduration] at h2
          linarith
    · rw [musicAccumLoop_halt hc] at h
      cases h
      ring

/-- Any successful exit of the loop carries at least the threshold duration. -/
lemma musicAccumLoop_exit : ∀ (fuel k : ℕ) (pool : List MusicFile)
    (sel : List AudioTrack) (cur : ℚ) (r : List AudioTrack × ℚ),
    musicAccumLoop target refills fuel k pool sel cur = some r →
    target + 30 ≤ r.2 := by
  intro fuel
  induction fuel with
  | zero =>
    intro k pool sel cur r h
    rw [musicAccumLoop_zero] at h
    exact absurd h (by simp)
  | succ fuel ih =>
    intro k pool sel cur r h
    by_cases hc : cur < target + 30
    · rcases pool with _ | ⟨t, rest⟩
      · rcases hrk : refills k with _ | ⟨t, rest⟩
        · rw [musicAccumLoop_nil_dead hc hrk] at h
          exact absurd h (by simp)
        · rcases hl : t.load with _ | d
          · rw [musicAccumLoop_nil_none hc hrk hl] at h
            exact ih (k + 1) rest sel cur r h
          · rw [musicAccumLoop_nil_some hc hrk hl] at h
            exact ih (k + 1) rest (sel ++ [AudioTrack.afile t.path d]) (cur + d) r h
      · rcases hl : t.load with _ | d
        · rw [musicAccumLoop_cons_none hc hl] at h
          exact ih k rest sel cur r h
        · rw [musicAccumLoop_cons_some hc hl] at h
          exact ih k rest (sel ++ [AudioTrack.afile t.path d]) (cur + d) r h
    · rw [musicAccumLoop_halt hc] at h
      cases h
      exact le_of_not_lt hc

/-- Running the loop through a whole pool either finishes, or consumes the
pool entirely, accumulating exactly the loadable clips and durations. -/
lemma musicAccumLoop_consume : ∀ (pool : List MusicFile) (fuel k : ℕ)
    (sel : List AudioTrack) (cur : ℚ),
    (∃ r, musicAccumLoop target refills (pool.length + fuel) k pool sel cur = some r) ∨
    musicAccumLoop target refills (pool.length + fuel) k pool sel cur =
      musicAccumLoop target refills fuel k [] (sel ++ loadTracks pool) (cur + loadSum pool) := by
  intro pool
  induction pool with
  | nil =>
    intro fuel k sel cur
    right
    simp [loadTracks, loadSum]
  | cons t rest ih =>
    intro fuel k sel cur
    have hlen : (t :: rest).length + fuel = (rest.length + fuel) + 1 := by
      simp only [List.length_cons]
      ring
    rw [hlen]
    by_cases hc : cur < target + 30
    · rcases hl : t.load with _ | d
      · rw [musicAccumLoop_cons_none hc hl]
        have hT : loadTracks (t :: rest) = loadTracks rest := by
          simp [loadTracks, hl]
        have hS : loadSum (t :: rest) = loadSum rest := by
          simp [loadSum, loadVal, hl]
        rw [hT, hS]
        exact ih fuel k sel cur
      · rw [musicAccumLoop_cons_some hc hl]
        have hT : sel ++ loadTracks (t :: rest) =
            (sel ++ [AudioTrack.afile t.path d]) ++ loadTracks rest := by
          simp [loadTracks, hl]
        have hS : cur + loadSum (t :: rest) = (cur + d) + loadSum rest := by
          simp only [loadSum, loadVal, List.map_cons, List.sum_cons, hl, Option.getD_some]
          ring
        rw [hT, hS]
        exact ih fuel k (sel ++ [AudioTrack.afile t.path d]) (cur + d)
    · rw [musicAccumLoop_halt hc]
      exact Or.inl ⟨(sel, cur), rfl⟩

/-- A still-running loop on an empty pool refills from the next shuffle. -/
lemma musicAccumLoop_refill (fuel k : ℕ) (sel : List AudioTrack) (cur : ℚ)
    (hrk : refills k ≠ []) (hc : cur < target + 30) :
    musicAccumLoop target refills (fuel + 1) k [] sel cur =
      musicAccumLoop target refills (fuel + 1) (k + 1) (refills k) sel cur := by
  rcases hrk2 : refills k with _ | ⟨t, rest⟩
  · exact absurd hrk2 hrk
  · rcases hl : t.load with _ | d
    · rw [musicAccumLoop_nil_none hc hrk2 hl, musicAccumLoop_cons_none hc hl]
    · rw [musicAccumLoop_nil_some hc hrk2 hl, musicAccumLoop_cons_some hc hl]

/-- One full pass over a refilled pool: the loop either finishes or returns to
an empty pool having added one full shuffle of loadable clips and one full
library worth of loadable duration. -/
lemma musicAccumLoop_pass (files : List MusicFile) (k fuel : ℕ)
    (sel : List AudioTrack) (cur : ℚ)
    (hperm : (refills k).Perm files) (hne : files ≠ []) :
    (∃ r, musicAccumLoop target refills (files.length + fuel) k [] sel cur = some r) ∨
    musicAccumLoop target refills (files.length + fuel) k [] sel cur =
      musicAccumLoop target refills fuel (k + 1) []
        (sel ++ loadTracks (refills k)) (cur + loadSum files) := by
  have hL : (refills k).length = files.length := hperm.length_eq
  have hLpos : 1 ≤ files.length := List.length_pos.mpr hne
  have hrkne : refills k ≠ [] := by
    intro h0
    apply hne
    rw [h0] at hL
    exact List.length_eq_zero.mp hL.symm
  by_cases hc : cur < target + 30
  · have hsplit : files.length + fuel = (files.length + fuel - 1) + 1 := by omega
    rw [hsplit, musicAccumLoop_refill _ k sel cur hrkne hc, ← hsplit]
    have hS : loadSum (refills k) = loadSum files :=
      List.Perm.sum_eq (hperm.map loadVal)
    have hlen2 : files.length + fuel = (refills k).length + fuel := by rw [hL]
    rw [hlen2, ← hS]
    exact musicAccumLoop_consume (refills k) fuel (k + 1) sel cur
  · left
    have hsplit : files.length + fuel = (files.length + fuel - 1) + 1 := by omega
    rw [hsplit, musicAccumLoop_halt hc]
    exact ⟨(sel, cur), rfl⟩

/-- After enough full passes the loop finishes: each pass adds the whole
library loadable duration, so any threshold is eventually reached. -/
lemma musicAccumLoop_passes (files : List MusicFile)
    (hperm : ∀ i, (refills i).Perm files) (hne : files ≠ []) :
    ∀ (n k : ℕ) (sel : List AudioTrack) (cur : ℚ),
      target + 30 ≤ cur + n * loadSum files →
      ∃ r, musicAccumLoop target refills (n * (files.length + 1) + 1) k [] sel cur = some r := by
  intro n
  induction n with
  | zero =>
    intro k sel cur hb
    have hb2 : ¬ cur < target + 30 := by
      push_neg
      simpa using hb
    rw [show 0 * (files.length + 1) + 1 = 0 + 1 by ring, musicAccumLoop_halt hb2]
    exact ⟨(sel, cur), rfl⟩
  | succ n ih =>
    intro k sel cur hb
    by_cases hc2 : target + 30 ≤ cur
    · have h1 : musicAccumLoop target refills (0 + 1) k [] sel cur = some (sel, cur) :=
        musicAccumLoop_halt (not_lt.mpr hc2)
      exact ⟨(sel, cur),
        musicAccumLoop_mono (0 + 1) ((n + 1) * (files.length + 1) + 1)
          k [] sel cur (sel, cur) (by omega) h1⟩
    · have harith : (n + 1) * (files.length + 1) + 1 =
          files.length + (n * (files.length + 1) + 2) := by ring
      rw [harith]
      rcases musicAccumLoop_pass files k
        (n * (files.length + 1) + 2) sel cur (hperm k) hne with ⟨r, hr⟩ | heq
      · exact ⟨r, hr⟩
      · rw [heq]
        have hb2 : target + 30 ≤ (cur + loadSum files) + n * loadSum files := by
          have hcast : ((n + 1 : ℕ) : ℚ) * loadSum files =
              (n : ℚ) * loadSum files + loadSum files := by
            push_cast
            ring
          rw [hcast] at hb
          linarith
        obtain ⟨r, hr⟩ := ih (k + 1) (sel ++ loadTracks (refills k)) (cur + loadSum files) hb2
        exact ⟨r, musicAccumLoop_mono (n * (files.length + 1) + 1)
          (n * (files.length + 1) + 2) (k + 1) []
          (sel ++ loadTracks (refills k)) (cur + loadSum files) r (by omega) hr⟩

end MusicLoop

/-- C10: for every target and every non-empty music pool whose files load
with nonnegative durations, at least one of them strictly positive, the
accumulation loop of prepare_background_music terminates (some fuel finishes
it), the accumulated duration at exit is at least target plus 30 seconds, and
the accumulated duration is exactly the sum of the successfully loaded clip
durations, so failed loads add nothing. -/
theorem musicAccumLoop_terminates :
    ∀ (target : ℚ) (files : List MusicFile) (refills : ℕ → List MusicFile),
      files ≠ [] →
      (∀ i, (refills i).Perm files) →
      (∀ f ∈ files, ∀ d, f.load = some d → 0 ≤ d) →
      (∃ f ∈ files, ∃ d, f.load = some d ∧ 0 < d) →
      ∃ fuel selected cur,
        musicAccumLoop target refills fuel 1 (refills 0) [] 0 = some (selected, cur) ∧
        target + 30 ≤ cur ∧
        cur = (selected.map aduration).sum := by
  intro target files refills hne hperm hnonneg hgood
  have hnn : ∀ q ∈ files.map loadVal, 0 ≤ q := by
    intro q hq
    obtain ⟨g, hg, rfl⟩ := List.mem_map.mp hq
    rcases hgl : g.load with _ | e
    · simp [loadVal, hgl]
    · simpa [loadVal, hgl] using hnonneg g hg e hgl
  have hS : 0 < loadSum files := by
    obtain ⟨f, hf, d, hld, hd⟩ := hgood
    have hv : loadVal f = d := by simp [loadVal, hld]
    have hmem : loadVal f ∈ files.map loadVal := List.mem_map_of_mem loadVal hf
    have hle := List.single_le_sum hnn (loadVal f) hmem
    rw [hv] at hle
    exact lt_of_lt_of_le hd hle
  obtain ⟨n, hn⟩ := exists_nat_ge ((target + 30) / loadSum files)
  have hnS : target + 30 ≤ (n : ℚ) * loadSum files := by
    have := (div_le_iff₀ hS).mp hn
    linarith
  have hsum0 : loadSum (refills 0) = loadSum files :=
    List.Perm.sum_eq ((hperm 0).map loadVal)
  rcases musicAccumLoop_consume (refills 0)
    (n * (files.length + 1) + 1) 1 [] 0 with ⟨r, hr⟩ | heq
  · refine ⟨(refills 0).length + (n * (files.length + 1) + 1), r.1, r.2, by simpa using hr, ?_, ?_⟩
    · exact musicAccumLoop_exit _ 1 (refills 0) [] 0 r hr
    · have := musicAccumLoop_sum _ 1 (refills 0) [] 0 r hr
      simpa using this
  · have hb : target + 30 ≤ (0 + loadSum (refills 0)) + n * loadSum files := by
      rw [hsum0, zero_add]
      have hSnn : 0 ≤ loadSum files := le_of_lt hS
      linarith
    obtain ⟨r, hr⟩ := musicAccumLoop_passes files hperm hne n 1
      ([] ++ loadTracks (refills 0)) (0 + loadSum (refills 0)) hb
    have htop : musicAccumLoop target refills
        ((refills 0).length + (n * (files.length + 1) + 1)) 1 (refills 0) [] 0 = some r := by
      rw [heq]
      exact hr
    refine ⟨(refills 0).length + (n * (files.length + 1) + 1), r.1, r.2, by simpa using htop, ?_, ?_⟩
    · exact musicAccumLoop_exit _ 1 (refills 0) [] 0 r htop
    · have := musicAccumLoop_sum _ 1 (refills 0) [] 0 r htop
      simpa using this

/-- Witness for C10 on the concrete one-track library: its single file loads
with positive duration, every shuffle is the identity permutation. -/
theorem musicAccumLoop_terminates_witness :
    lib1 ≠ [] ∧
    (∃ fuel selected cur,
      musicAccumLoop 60 (fun _ => lib1) fuel 1 ((fun _ => lib1) 0) [] 0 =
        some (selected, cur) ∧
      (60 : ℚ) + 30 ≤ cur ∧
      cur = (selected.map aduration).sum) := by
  refine ⟨by decide, ?_⟩
  apply musicAccumLoop_terminates 60 lib1 (fun _ => lib1) (by decide)
    (fun _ => List.Perm.refl lib1)
  · intro f hf d hd
    simp only [lib1, List.mem_singleton] at hf
    subst hf
    simp only [MusicFile.load] at hd
    cases hd
    norm_num
  · refine ⟨⟨"a.mp3", some 100, none⟩, ?_, 100, rfl, by norm_num⟩
    simp [lib1]

end SlideshowBuilder
